import Mathlib

/-!
Shallow embedding of the supersh shell core (src/supersh-beta.c) and a
verification of its natural-language specification.

Strings from the C buffers are modelled as `List Char`.  A `char *` that may
be NULL is modelled as `Option (List Char)`, and the `char **cmdvec` array
(whose trailing NULL sentinel is left implicit) as `List (Option (List Char))`.
In-place buffer mutation (the parser writes NUL bytes into the line buffer)
is modelled by computing the resulting string values directly.
-/

namespace Supersh

/-- Whitespace set of the C code: the scan sets `" \t\r\n\v\f"` used by
`strspn`/`strcspn` in `parse_inbuf` and `main`, which coincides with the
characters accepted by `isspace` in the C locale. -/
def isWS (c : Char) : Bool :=
  c == ' ' || c == '\t' || c == '\r' || c == '\n' || c == '\x0b' || c == '\x0c'

/-- The six builtin handlers of the shell (lines 99-233 of the source).
The function pointer `void(*internal)(char*)` of `struct Input_def` is
modelled as `Option Builtin`. -/
inductive Builtin where
  | echo
  | exitSh
  | help
  | history
  | jobs
  | set
deriving DecidableEq

def kwEcho : List Char := ['e', 'c', 'h', 'o']

def kwExit : List Char := ['e', 'x', 'i', 't']

def kwHelp : List Char := ['h', 'e', 'l', 'p']

def kwHistory : List Char := ['h', 'i', 's', 't', 'o', 'r', 'y']

def kwJobs : List Char := ['j', 'o', 'b', 's']

def kwSet : List Char := ['s', 'e', 't']

/-- Models `!strncmp(in,kw,n) && isspace((int)in[n])` (lines 266-277): the
line starts with the keyword and the keyword is immediately followed by a
whitespace character.  When the line is exactly the keyword, `in[n]` is the
NUL terminator, for which `isspace` is false; this is the `[] => false` arm. -/
def startsWithKw (s kw : List Char) : Bool :=
  (s.take kw.length == kw) &&
    (match s.drop kw.length with
     | c :: _ => isWS c
     | [] => false)

/-- The if-else chain of lines 266-277 selecting a builtin handler. -/
def builtinOf (l : List Char) : Option Builtin :=
  if startsWithKw l kwEcho then some Builtin.echo
  else if startsWithKw l kwExit then some Builtin.exitSh
  else if startsWithKw l kwHelp then some Builtin.help
  else if startsWithKw l kwHistory then some Builtin.history
  else if startsWithKw l kwJobs then some Builtin.jobs
  else if startsWithKw l kwSet then some Builtin.set
  else none

/-- The record `struct Input_def` (lines 139-146).  `cmdvec` is NULL until
assigned (`calloc` zero-fills it in a fresh history node), hence the outer
`Option`.  The inner list holds the `len` argument slots; the final NULL
sentinel that `parse_inbuf` always appends after them is left implicit, while
a NULL written into slot `len-1` by the background-operator handling is an
explicit `none` entry.  The `next` link is represented by membership in a
Lean list. -/
structure Input where
  cmdvec : Option (List (Option (List Char)))
  internal : Option Builtin
  background : Bool
  historical : Bool
deriving DecidableEq

/-- A freshly calloc-ed history node (lines 452-495): all fields zero. -/
def blankNode : Input := ⟨none, none, false, false⟩

/-- Models `strchr`: index of the first character satisfying `p`, if any. -/
def firstIdx (p : Char → Bool) : List Char → Option Nat
  | [] => none
  | c :: cs => if p c then some 0 else (firstIdx p cs).map (fun i => i + 1)

/-- Fuel-indexed worker for `tokenize` (structural recursion on the fuel so
that the kernel can evaluate it). -/
def tokenizeF : Nat → List Char → List (List Char)
  | 0, _ => []
  | fuel + 1, s =>
    match s.dropWhile isWS with
    | [] => []
    | c :: cs =>
      (c :: cs.takeWhile (fun x => !isWS x)) ::
        tokenizeF fuel (cs.dropWhile (fun x => !isWS x))

/-- The tokenizing do-while loop of `parse_inbuf` (lines 325-341): skip a
whitespace run, take the following non-whitespace run as one token, repeat.
Each iteration consumes at least one character, so `s.length` fuel suffices. -/
def tokenize (s : List Char) : List (List Char) := tokenizeF s.length s

/-- The backward walk of lines 368-372: starting left of position `m+1`,
step left over whitespace (stopping at index 0 at the latest) and return the
index of the character after which the NUL is written.  `trimStop s m` is the
final value of `amp` when the do-while started with `amp` at index `m+1`. -/
def trimStop (s : List Char) : Nat → Nat
  | 0 => 0
  | j + 1 => if isWS (s.getD (j + 1) 'x') then trimStop s j else j + 1

/-- The trailing trim of lines 368-372 applied to the buffer region `s` with
`amp` initially at index `k`: if `amp == in` (that is `k = 0`) nothing is
written, otherwise a NUL is written after the last non-whitespace character
below `k`, truncating the C string there. -/
def backTrim (s : List Char) (k : Nat) : List Char :=
  if k = 0 then s else s.take (trimStop s (k - 1) + 1)

def decVal (s : List Char) : Nat :=
  s.foldl (fun a c => a * 10 + (c.toNat - 48)) 0

/-- Modulus of the C type `unsigned long` (LP64). -/
def ULONG_MOD : Nat := 2 ^ 64

/-- Models `strtoul(s, NULL, 10)` on the extracted (whitespace-free)
reference token: an optional sign followed by decimal digits; a missing
number yields 0; a negative number wraps modulo `ULONG_MOD`. -/
def strtoul10 (s : List Char) : Nat :=
  match s with
  | '-' :: r => (ULONG_MOD - decVal (r.takeWhile Char.isDigit) % ULONG_MOD) % ULONG_MOD
  | '+' :: r => decVal (r.takeWhile Char.isDigit) % ULONG_MOD
  | r => decVal (r.takeWhile Char.isDigit) % ULONG_MOD

/-- Lines 344-374 of `parse_inbuf`: given the token array `cl` built either
by the tokenizer or as the single whole-line token of a builtin, append the
implicit NULL sentinel, then handle the background operator on the last
token (`strchr` finds the first ampersand anywhere in it; if it is the first
character of the token the slot is replaced by NULL) and apply the trailing
trim, which truncates the last token at the first ampersand (builtin lines
additionally lose the whitespace in front of it, and with no ampersand they
lose their trailing whitespace).  The C code reads `cl[len-1]` even when
`len = 0`; that is undefined behaviour and unreachable from `main` (blank
lines never reach the parser), so the `none` arm is arbitrary. -/
def finishInput (cl : List (List Char)) (internal : Option Builtin) : Input :=
  match cl.getLast? with
  | none => ⟨some [], internal, false, false⟩
  | some t =>
    match firstIdx (fun c => c == '&') t with
    | some k =>
      ⟨some (cl.dropLast.map some ++ [if k = 0 then none else some (backTrim t k)]),
        internal, true, false⟩
    | none =>
      ⟨some (cl.dropLast.map some ++ [some (backTrim t t.length)]),
        internal, false, false⟩

/-- The parser `parse_inbuf` (lines 253-375), as a function of the current
history list (the global `histlist` it walks for a history reference) and
the input line.  Branches, in source order:
builtin keyword (the whole line becomes the single token, line 282);
history reference (first `!` anywhere in a non-builtin line, lines 286-323:
the whitespace-free run after the `!` is read with `strtoul`; 0 or a failed
parse frees the record and returns NULL, an out-of-range index prints
`event not found` and returns NULL, and on success the resolved node is
copied wholesale with `historical` set — sharing its `cmdvec` storage);
otherwise tokenization followed by the background handling. -/
def parse_inbuf (hist : List Input) (l : List Char) : Option Input :=
  match builtinOf l with
  | some b => some (finishInput [l] (some b))
  | none =>
    match firstIdx (fun c => c == '!') l with
    | some i =>
      let exc := l.drop (i + 1)
      let hr := strtoul10 (exc.takeWhile (fun c => !isWS c))
      if hr = 0 then none
      else
        match hist[hr - 1]? with
        | some hp => some ⟨hp.cmdvec, hp.internal, hp.background, true⟩
        | none => none
    | none => some (finishInput (tokenize l) none)

/-- The slot `hp->cmdvec[0]` read by `builtin_history`.  On a node whose
`cmdvec` is still NULL (a junk node from a failed parse) the C code would
dereference a null pointer; the model returns `none` for that slot. -/
def cmdvec0 (e : Input) : Option (List Char) :=
  (e.cmdvec.getD []).headD none

/-- Worker for `builtin_history`, carrying the running counter `cnt` of the
print loop (lines 154-161). -/
def histLinesAux (cnt : Nat) : List Input → List (Nat × Option (List Char) × Bool)
  | [] => []
  | e :: es => (cnt + 1, cmdvec0 e, e.background) :: histLinesAux (cnt + 1) es

/-- The `history` builtin (lines 154-161): one `(index, cmdvec[0],
background)` triple per node, in list order, the index starting at 1. -/
def builtin_history (h : List Input) : List (Nat × Option (List Char) × Bool) :=
  histLinesAux 0 h

/-- The variable name of a binding string: everything before the first `=`
(used to model which element of `environ` a `putenv` call replaces). -/
def envName (s : List Char) : List Char := s.takeWhile (fun c => !(c == '='))

/-- Models `putenv(binding)`: replace the first binding with the same name,
or append the new binding at the end of `environ`. -/
def putenv : List (List Char) → List Char → List (List Char)
  | [], b => [b]
  | e :: es, b => if envName e = envName b then b :: es else e :: putenv es b

/-- The `set` builtin (lines 195-233), as a function of the line it receives
(the trimmed raw buffer) and of `environ`; it returns the new `environ` and
whether the `syntax error` fault was reported.  Faithful to the source, the
fault branch (line 212-213) does not return: the code falls through, copies
the argument into a fresh buffer, appends `=` when the argument has none,
and calls `putenv` anyway.  (The buffer size expression on line 215 is the
precedence bug noted in the spec: it always allocates one or two bytes and
`strcpy` overflows the allocation; the model keeps the string value that the
code copies.)  With no argument the builtin only prints `environ`. -/
def builtin_set (line : List Char) (env : List (List Char)) : List (List Char) × Bool :=
  let p := (line.drop 3).dropWhile isWS
  if p = [] then (env, false)
  else
    let fault := p.head? == some '='
    let binding := if p.any (fun c => c == '=') then p else p ++ ['=']
    (putenv env binding, fault)

/-- The record `struct Job_def` (lines 163-168); `next` is represented by
membership in a Lean list. -/
structure Job where
  pid : Nat
  cmdbuf : List Char
deriving DecidableEq

/-- Result of the non-blocking `waitpid(pid, &st, WNOHANG)` probe: 0 when
the child is still running, or its pid together with a status for which
either `WIFEXITED` holds (normal exit) or not (terminated by a signal). -/
inductive WaitStatus where
  | running
  | exited (code : Nat)
  | signaled (sig : Nat)
deriving DecidableEq

/-- Mutable state of the sweep loop of `main` (lines 408-442): the value of
the `joblist` head variable, the `next` field of each node (by index into
the original list), the `jprev` pointer, and whether the loop has hit the
`break` of line 435.  Freed nodes keep their fields readable (the loop
continues through `jptr->next` after `free(jptr)`, which on the real
allocator still yields the old value since nothing is reallocated before the
read), matching the concrete behaviour of the compiled code. -/
structure SweepSt where
  head : Option Nat
  nexts : List (Option Nat)
  jprev : Option Nat
  broke : Bool
deriving DecidableEq

/-- One iteration of the sweep loop body visiting node `i` (lines 408-442).
Running child: nothing happens (note that `jprev` is NOT advanced — line 440
sits inside the `waitpid` hit branch, which is the stale-`jprev` splice bug).
Exited child with a successor: unlink through `jprev` (or move the head) and
free the node.  Exited child in the last node: `free(joblist)` frees the
head node, the whole list is dropped (`joblist=NULL`) and the loop breaks —
this discards every other entry, running or not.  Signal-terminated child:
`WIFEXITED` is false, so the node stays in the table (although the child has
now been reaped), and `jprev` advances. -/
def sweepVisit (w : Nat → WaitStatus) (pids : List Nat) (s : SweepSt) (i : Nat) : SweepSt :=
  if s.broke then s
  else
    match w (pids.getD i 0) with
    | WaitStatus.running => s
    | WaitStatus.exited _ =>
      match s.nexts.getD i none with
      | some nx =>
        match s.jprev with
        | some j => { s with nexts := s.nexts.set j (some nx), jprev := some i }
        | none => { s with head := some nx, jprev := some i }
      | none => { s with head := none, broke := true }
    | WaitStatus.signaled _ => { s with jprev := some i }

/-- Collect the list reachable from `head` through the (possibly respliced)
`next` fields; the fuel bounds the walk. -/
def chase (jobs : List Job) (nexts : List (Option Nat)) : Nat → Option Nat → List Job
  | 0, _ => []
  | _ + 1, none => []
  | fuel + 1, some i => jobs.getD i ⟨0, []⟩ :: chase jobs nexts fuel (nexts.getD i none)

/-- The job-table sweep of `main` (lines 408-442): visit the original nodes
in order (the iteration pointer is never respliced before being read), then
read off the list that remains reachable from `joblist`. -/
def sweep (w : Nat → WaitStatus) (jobs : List Job) : List Job :=
  match jobs with
  | [] => []
  | _ =>
    let n := jobs.length
    let init : SweepSt :=
      ⟨some 0, (List.range n).map (fun i => if i + 1 < n then some (i + 1) else none), none, false⟩
    let fin := (List.range n).foldl (sweepVisit w (jobs.map Job.pid)) init
    chase jobs fin.nexts n fin.head

/-- Capacity constant of the shell: `BUFSIZ` from glibc stdio, used both as
the line-buffer size (line 399) and as the history bound (line 476). -/
def BUFSIZ : Nat := 8192

/-- The mutable globals of the REPL: `histlist`, `joblist` and the prompt
counter `count_commands` (line 384, initialised to 1). -/
structure ShellState where
  histlist : List Input
  joblist : List Job
  count_commands : Nat
deriving DecidableEq

/-- Lines 452-495 of `main`: before the line is parsed, a zero-filled node
is appended at the tail of `histlist`; when the list already holds `BUFSIZ`
or more nodes the head (oldest) node is freed first. -/
def histPush (h : List Input) : List Input :=
  if h = [] then [blankNode]
  else (if BUFSIZ ≤ h.length then h.drop 1 else h) ++ [blankNode]

/-- Lines 504-506 of `main`: the freshly appended tail node receives the
parsed record fields `cmdvec`, `background` and `internal` (its `historical`
bit stays at the calloc value 0). -/
def histFill (h : List Input) (r : Input) : List Input :=
  h.dropLast ++ [⟨r.cmdvec, r.internal, r.background, false⟩]

/-- Observable events of one REPL iteration, in the order the corresponding
code runs inside the `while(1)` loop of `main`. -/
inductive Ev where
  | readLineEv
  | sweepEv
  | blankSkipEv
  | histAppendEv
  | parseFailEv
  | dispatchEv
deriving DecidableEq

/-- How the parsed record is dispatched by lines 508-526. -/
inductive Action where
  | blankSkip
  | parseFail
  | builtinInProc (b : Builtin) (arg : List Char)
  | forkedBuiltin (b : Builtin) (arg : List Char)
  | forkedExec (cmdvec : Option (List (Option (List Char)))) (background : Bool)
deriving DecidableEq

/-- Position of the first NUL the history branch writes into the buffer
(line 294): the end of the whitespace-free run following the bang at `i`. -/
def bufAfterHist (l : List Char) (i : Nat) : List Char :=
  l.take (i + 1 + ((l.drop (i + 1)).takeWhile (fun c => !isWS c)).length)

/-- The C string left in the line buffer after the tokenizer and the
trailing trim have run: the first NUL is the separator written after the
first token (when anything follows it), except on a single-token line where
the trailing trim can write earlier. -/
def bufAfterTok (l : List Char) : List Char :=
  let lead := (l.takeWhile isWS).length
  match tokenize l with
  | [] => l
  | t :: rest =>
    if rest = [] then
      let a := lead + (match firstIdx (fun c => c == '&') t with | some k => k | none => t.length)
      if a = 0 then (if lead + t.length < l.length then l.take (lead + t.length) else l)
      else backTrim l a
    else l.take (lead + t.length)

/-- The C string left in `inbuf` after `parse_inbuf` returns: builtin lines
are only trailing-trimmed (at the first ampersand if present, line 357-372),
history lines are cut after the reference token (line 294), and tokenized
lines are cut at the first token separator. -/
def bufAfterParse (l : List Char) : List Char :=
  if (builtinOf l).isSome then
    backTrim l (match firstIdx (fun c => c == '&') l with | some k => k | none => l.length)
  else
    match firstIdx (fun c => c == '!') l with
    | some i => bufAfterHist l i
    | none => bufAfterTok l

/-- The argument a dispatched record is executed with, per lines 508-526:
an in-process builtin receives `cmdvec[0]` when the record came from
history and the raw buffer otherwise (line 510); a forked builtin always
receives the raw buffer (line 518); an external record goes to
`execvp(cmdvec[0], cmdvec)` (line 521). -/
def dispatchOf (r : Input) (buf : List Char) : Action :=
  match r.internal with
  | some b =>
    if r.background then Action.forkedBuiltin b buf
    else Action.builtinInProc b (if r.historical then (cmdvec0 r).getD [] else buf)
  | none => Action.forkedExec r.cmdvec r.background

/-- The program name handed to `execvp`: slot 0 of the argument array
(`none` models a NULL `char *`, including the case where the slot itself
was nulled by the background handling). -/
def execvpArg0 (cv : Option (List (Option (List Char)))) : Option (List Char) :=
  match cv with
  | some (a :: _) => a
  | _ => none

/-- Result of one REPL iteration: the new globals, the event trace of the
iteration, and the dispatch performed. -/
structure StepOut where
  st : ShellState
  trace : List Ev
  action : Action
deriving DecidableEq

/-- One iteration of the `while(1)` loop of `main` (lines 392-567), given
the `waitpid` oracle `w`, the pid `newPid` a successful `fork` would return,
the current globals and the line `fgets` just stored in `inbuf`.  Order of
business, faithful to the source: the prompt is printed and the line is
read FIRST (lines 397-406), then the job table is swept (408-442), then a
blank line is skipped (446-448); otherwise `count_commands` is incremented
(450), a zero-filled history node is appended — evicting the oldest node at
capacity — BEFORE parsing (452-495), the line is parsed against the updated
`histlist` (497-502, a failed parse leaves the blank node behind), the new
node is filled from the record (504-506) and the record is dispatched
(508-526), a background record adding a job at the tail of `joblist`
(546-565).  `fork` is assumed to succeed and end-of-input (which exits the
shell, line 405-406) is handled outside this function. -/
def replStep (w : Nat → WaitStatus) (newPid : Nat) (s : ShellState) (inbuf : List Char) : StepOut :=
  let jobs1 := sweep w s.joblist
  if inbuf.dropWhile isWS = [] then
    ⟨⟨s.histlist, jobs1, s.count_commands⟩,
      [Ev.readLineEv, Ev.sweepEv, Ev.blankSkipEv], Action.blankSkip⟩
  else
    let hist1 := histPush s.histlist
    match parse_inbuf hist1 inbuf with
    | none =>
      ⟨⟨hist1, jobs1, s.count_commands + 1⟩,
        [Ev.readLineEv, Ev.sweepEv, Ev.histAppendEv, Ev.parseFailEv], Action.parseFail⟩
    | some r =>
      let buf := bufAfterParse inbuf
      let jobs2 := if r.background then jobs1 ++ [⟨newPid, buf⟩] else jobs1
      ⟨⟨histFill hist1 r, jobs2, s.count_commands + 1⟩,
        [Ev.readLineEv, Ev.sweepEv, Ev.histAppendEv, Ev.dispatchEv], dispatchOf r buf⟩

/-- Iterated REPL: feed a sequence of input lines through `replStep`. -/
def replRun (w : Nat → WaitStatus) (newPid : Nat) (s : ShellState) : List (List Char) → ShellState
  | [] => s
  | l :: ls => replRun w newPid (replStep w newPid s l).st ls

/-- Index of the first occurrence of an event in a trace (the length of the
trace when absent). -/
def evIdx (e : Ev) (tr : List Ev) : Nat := tr.findIdx (fun x => x == e)

/-- A waitpid oracle under which every child is still running. -/
def w0 : Nat → WaitStatus := fun _ => WaitStatus.running

/-- A waitpid oracle under which pid 2 has exited normally and every other
child is still running. -/
def w2 : Nat → WaitStatus := fun p => if p == 2 then WaitStatus.exited 0 else WaitStatus.running

/-- A history entry as left behind by parsing the external command `ls`. -/
def entryLs : Input := ⟨some [some ['l', 's']], none, false, false⟩

/-- A history entry as left behind by parsing the external command `pwd`. -/
def entryPwd : Input := ⟨some [some ['p', 'w', 'd']], none, false, false⟩

/-- A history entry as left behind by parsing the external command `du`. -/
def entryDu : Input := ⟨some [some ['d', 'u']], none, false, false⟩

/-- Shell state after three successfully parsed commands. -/
def s3 : ShellState := ⟨[entryLs, entryPwd, entryDu], [], 4⟩

/-- The input line `!2` as delivered by fgets. -/
def lineBang2 : List Char := ['!', '2', '\n']

/-- The input line `!5` as delivered by fgets. -/
def lineBang5 : List Char := ['!', '5', '\n']

/-- The input line `!0` as delivered by fgets. -/
def lineBang0 : List Char := ['!', '0', '\n']

/-- The input line `foo a&b` as delivered by fgets. -/
def lineFooAmp : List Char := ['f', 'o', 'o', ' ', 'a', '&', 'b', '\n']

/-- The input line `ls x&` as delivered by fgets. -/
def lineLsAmp : List Char := ['l', 's', ' ', 'x', '&', '\n']

/-- The input line consisting of the single token `&`. -/
def lineAmp : List Char := ['&', '\n']

/-- The input line `set =FOO` as delivered by fgets. -/
def lineSetEq : List Char := ['s', 'e', 't', ' ', '=', 'F', 'O', 'O', '\n']

/-- The input line `x` as delivered by fgets. -/
def lineX : List Char := ['x', '\n']

theorem dropWhile_head_not (p : Char → Bool) :
    ∀ (s : List Char) (c : Char) (cs : List Char), s.dropWhile p = c :: cs → p c = false := by
  intro s
  induction s with
  | nil => intro c cs h; simp [List.dropWhile] at h
  | cons a tl ih =>
    intro c cs h
    rw [List.dropWhile_cons] at h
    by_cases hp : p a = true
    · rw [if_pos hp] at h
      exact ih c cs h
    · rw [if_neg hp] at h
      cases h
      simpa using hp

theorem tokenizeF_mem (fuel : Nat) :
    ∀ (s t : List Char), t ∈ tokenizeF fuel s → t ≠ [] ∧ ∀ c ∈ t, isWS c = false := by
  induction fuel with
  | zero => intro s t h; simp [tokenizeF] at h
  | succ n ih =>
    intro s t h
    rw [tokenizeF] at h
    cases hd : s.dropWhile isWS with
    | nil => rw [hd] at h; simp at h
    | cons c cs =>
      rw [hd] at h
      rcases List.mem_cons.mp h with h1 | h2
      · subst h1
        refine ⟨by simp, ?_⟩
        intro x hx
        rcases List.mem_cons.mp hx with rfl | hxx
        · exact dropWhile_head_not isWS s x cs hd
        · simpa using List.mem_takeWhile_imp hxx
      · exact ih _ t h2

/-- Every token the tokenizer produces is nonempty and whitespace-free. -/
theorem tokenize_mem (l t : List Char) (h : t ∈ tokenize l) :
    t ≠ [] ∧ ∀ c ∈ t, isWS c = false :=
  tokenizeF_mem l.length l t h

theorem firstIdx_lt_length (p : Char → Bool) :
    ∀ (s : List Char) (k : Nat), firstIdx p s = some k → k < s.length := by
  intro s
  induction s with
  | nil => intro k h; simp [firstIdx] at h
  | cons c cs ih =>
    intro k h
    rw [firstIdx] at h
    by_cases hp : p c = true
    · rw [if_pos hp] at h
      cases h
      simp
    · rw [if_neg hp] at h
      rcases Option.map_eq_some'.mp h with ⟨k0, hk0, rfl⟩
      have := ih k0 hk0
      simp
      omega

theorem getD_mem_of_lt (l : List Char) (n : Nat) (d : Char) (h : n < l.length) :
    l.getD n d ∈ l := by
  rw [List.getD_eq_getElem?_getD, List.getElem?_eq_getElem h]
  exact List.getElem_mem h

theorem trimStop_eq_self (s : List Char) (m : Nat) (h : isWS (s.getD m 'x') = false) :
    trimStop s m = m := by
  cases m with
  | zero => rfl
  | succ j =>
    simp only [trimStop]
    rw [h]
    simp

/-- On a whitespace-free token the trailing trim truncates exactly at the
position of the NUL write (the position of the first ampersand). -/
theorem backTrim_eq_take (t : List Char) (k : Nat) (hk0 : 0 < k) (hkl : k ≤ t.length)
    (hws : ∀ c ∈ t, isWS c = false) : backTrim t k = t.take k := by
  have hmem : t.getD (k - 1) 'x' ∈ t := getD_mem_of_lt t (k - 1) 'x' (by omega)
  have h1 : trimStop t (k - 1) = k - 1 := trimStop_eq_self t (k - 1) (hws _ hmem)
  rw [backTrim, if_neg (by omega), h1]
  congr 1
  omega

theorem takeWhile_nonws (ds : List Char) (h : ds.all (fun c => !isWS c) = true) :
    (ds ++ ['\n']).takeWhile (fun c => !isWS c) = ds := by
  induction ds with
  | nil =>
    have hnl : (!isWS '\n') = false := by decide
    simp [List.takeWhile_cons, hnl]
  | cons c tl ih =>
    rw [List.all_cons] at h
    have h1 := (Bool.and_eq_true _ _).mp h
    simp [List.takeWhile_cons, h1.1, ih h1.2]

theorem mem_of_getLastSome {α : Type} (l : List α) (a : α) (h : l.getLast? = some a) :
    a ∈ l := by
  rcases List.mem_getLast?_eq_getLast (Option.mem_def.mpr h) with ⟨hne, heq⟩
  rw [heq]
  exact List.getLast_mem hne

theorem histLinesAux_length (h : List Input) : ∀ c, (histLinesAux c h).length = h.length := by
  induction h with
  | nil => intro c; rfl
  | cons e es ih => intro c; simp [histLinesAux, ih]

theorem histLinesAux_get (h : List Input) :
    ∀ (c i : Nat) (e : Input), h[i]? = some e →
      (histLinesAux c h)[i]? = some (c + i + 1, cmdvec0 e, e.background) := by
  induction h with
  | nil => intro c i e he; simp at he
  | cons a tl ih =>
    intro c i e he
    cases i with
    | zero =>
      simp at he
      subst he
      simp [histLinesAux]
    | succ j =>
      simp at he
      have hj := ih (c + 1) j e he
      have harith : c + 1 + j + 1 = c + (j + 1) + 1 := by omega
      simp [histLinesAux]
      rw [hj, harith]

theorem histPush_ne_nil (h : List Input) : histPush h ≠ [] := by
  rw [histPush]
  split
  · simp
  · simp

theorem length_histPush_le (h : List Input) (hb : h.length ≤ BUFSIZ) :
    (histPush h).length ≤ BUFSIZ := by
  rw [histPush]
  split
  · decide
  · rename_i hne
    have hpos : 0 < h.length := List.length_pos.mpr hne
    have hB : 0 < BUFSIZ := by decide
    split
    · rename_i hge
      simp [List.length_append, List.length_drop]
      omega
    · rename_i hlt
      simp [List.length_append]
      omega

theorem length_histFill (h : List Input) (r : Input) (hne : h ≠ []) :
    (histFill h r).length = h.length := by
  have := List.length_pos.mpr hne
  simp [histFill, List.length_dropLast]
  omega

theorem replStep_blank (w : Nat → WaitStatus) (newPid : Nat) (s : ShellState) (l : List Char)
    (hb : l.dropWhile isWS = []) :
    replStep w newPid s l =
      ⟨⟨s.histlist, sweep w s.joblist, s.count_commands⟩,
        [Ev.readLineEv, Ev.sweepEv, Ev.blankSkipEv], Action.blankSkip⟩ := by
  simp only [replStep, hb]
  simp

theorem replStep_parseFail (w : Nat → WaitStatus) (newPid : Nat) (s : ShellState) (l : List Char)
    (hb : ¬ l.dropWhile isWS = [])
    (hp : parse_inbuf (histPush s.histlist) l = none) :
    replStep w newPid s l =
      ⟨⟨histPush s.histlist, sweep w s.joblist, s.count_commands + 1⟩,
        [Ev.readLineEv, Ev.sweepEv, Ev.histAppendEv, Ev.parseFailEv], Action.parseFail⟩ := by
  simp only [replStep, hp, if_neg hb]

theorem replStep_parsed (w : Nat → WaitStatus) (newPid : Nat) (s : ShellState) (l : List Char)
    (r : Input) (hb : ¬ l.dropWhile isWS = [])
    (hp : parse_inbuf (histPush s.histlist) l = some r) :
    replStep w newPid s l =
      ⟨⟨histFill (histPush s.histlist) r,
          (if r.background then sweep w s.joblist ++ [⟨newPid, bufAfterParse l⟩]
           else sweep w s.joblist),
          s.count_commands + 1⟩,
        [Ev.readLineEv, Ev.sweepEv, Ev.histAppendEv, Ev.dispatchEv],
        dispatchOf r (bufAfterParse l)⟩ := by
  simp only [replStep, hp, if_neg hb]

/-- Claim C2 (code-bug evidence): sweeping a job table whose first process
(pid 1) is still running and whose second, last process (pid 2) has exited
empties the whole table.  When the exited job sits in the last node, lines
430-436 execute `free(joblist); joblist=NULL; break`, which frees the head
node and discards every other entry — including the still-running job 1 —
contradicting the claim that a running entry survives every sweep. -/
theorem spec_c2_sweep_drops_running :
    sweep w2 [⟨1, ['a']⟩, ⟨2, ['b']⟩] = [] ∧ w2 1 = WaitStatus.running := ⟨rfl, rfl⟩

/-- Claim C3 (code-bug evidence): on the line `!5` with an empty history,
the parse fails (event not found), yet the History Store is left holding one
zero-initialised node, because `main` appends the new history node (lines
452-495) BEFORE calling the parser (line 499) and the failure path only
does `continue`.  Moreover, because the parser walks the already-extended
list, the reference `!1` with zero real entries does not fail at all: it
resolves to the fresh junk node (NULL `cmdvec`) just appended for the `!1`
line itself. -/
theorem spec_c3_failed_ref_mutates_history :
    parse_inbuf (histPush []) lineBang5 = none
    ∧ (replStep w0 7 ⟨[], [], 1⟩ lineBang5).st.histlist = [blankNode]
    ∧ parse_inbuf (histPush []) ['!', '1', '\n'] = some ⟨none, none, false, true⟩ :=
  ⟨rfl, rfl, rfl⟩

/-- Claim C6 counterexample: the line `!0` fails to parse (strtoul yields 0),
yet the command counter advances from 1 to 2, because `count_commands++`
(line 450) runs before the parse and the failure path only `continue`s. -/
theorem spec_c6_counterexample :
    parse_inbuf (histPush []) lineBang0 = none
    ∧ (replStep w0 7 ⟨[], [], 1⟩ lineBang0).st.count_commands = 2 := ⟨rfl, rfl⟩

/-- Claim C6 (amended): the command counter is incremented exactly for
non-blank lines — a blank (whitespace-only or empty) line increments
nothing, and every non-blank line increments it by one whether or not its
parse succeeds. -/
theorem spec_c6_amended (w : Nat → WaitStatus) (newPid : Nat) (s : ShellState) (l : List Char) :
    (replStep w newPid s l).st.count_commands =
      if l.dropWhile isWS = [] then s.count_commands else s.count_commands + 1 := by
  by_cases hb : l.dropWhile isWS = []
  · rw [replStep_blank w newPid s l hb, if_pos hb]
  · rw [if_neg hb]
    cases hp : parse_inbuf (histPush s.histlist) l with
    | none => rw [replStep_parseFail w newPid s l hb hp]
    | some r => rw [replStep_parsed w newPid s l r hb hp]

/-- Claim C1 counterexample: with three stored commands, the line `!2`
resolves successfully (to the second entry, `pwd`), and afterwards the
History Store holds FOUR entries — the history node appended before the
parse is filled with a copy of the resolved record (lines 504-506), so the
`!2` line IS re-recorded, against the claim that no new entry is appended. -/
theorem spec_c1_counterexample :
    parse_inbuf (histPush s3.histlist) lineBang2
        = some ⟨entryPwd.cmdvec, entryPwd.internal, entryPwd.background, true⟩
    ∧ (replStep w0 7 s3 lineBang2).st.histlist
        = [entryLs, entryPwd, entryDu,
            ⟨entryPwd.cmdvec, entryPwd.internal, entryPwd.background, false⟩]
    ∧ ¬ (replStep w0 7 s3 lineBang2).st.histlist.length = s3.histlist.length := by
  refine ⟨rfl, rfl, by decide⟩

/-- Claim C1 (amended): a line whose parse succeeds as a history replay
still has its effects (the resolved record is dispatched exactly as parsed,
sharing the resolved entry cmdvec storage), AND it is re-recorded: the
history node appended before the parse is filled with copies of the
resolved record fields, so the store ends in that new entry. -/
theorem spec_c1_amended (w : Nat → WaitStatus) (newPid : Nat) (s : ShellState) (l : List Char)
    (r : Input) (hnb : ¬ l.dropWhile isWS = [])
    (hp : parse_inbuf (histPush s.histlist) l = some r) (_hh : r.historical = true) :
    (replStep w newPid s l).st.histlist
        = (histPush s.histlist).dropLast ++ [⟨r.cmdvec, r.internal, r.background, false⟩]
    ∧ (replStep w newPid s l).action = dispatchOf r (bufAfterParse l) := by
  rw [replStep_parsed w newPid s l r hnb hp]
  exact ⟨rfl, rfl⟩

/-- Claim C1 witness: the amended statement instantiated at a one-entry
history and the line `!1`. -/
theorem spec_c1_witness :
    (replStep w0 7 ⟨[entryLs], [], 2⟩ ['!', '1', '\n']).st.histlist
        = (histPush [entryLs]).dropLast
            ++ [⟨entryLs.cmdvec, entryLs.internal, entryLs.background, false⟩]
    ∧ (replStep w0 7 ⟨[entryLs], [], 2⟩ ['!', '1', '\n']).action
        = dispatchOf ⟨entryLs.cmdvec, entryLs.internal, entryLs.background, true⟩
            (bufAfterParse ['!', '1', '\n']) :=
  spec_c1_amended w0 7 ⟨[entryLs], [], 2⟩ ['!', '1', '\n']
    ⟨entryLs.cmdvec, entryLs.internal, entryLs.background, true⟩
    (by decide) (by decide) rfl

/-- Claim C8 (code-bug evidence): `set =FOO` reports the syntax-error fault
(the boolean is true), but because lines 212-213 do not return, the
environment is nevertheless mutated: `putenv` adds the binding `=FOO` to an
empty environment.  The second conjunct shows the REPL indeed dispatches
that line to the set builtin in-process with the trimmed buffer. -/
theorem spec_c8_set_eq_bug :
    builtin_set ['s', 'e', 't', ' ', '=', 'F', 'O', 'O'] [] = ([['=', 'F', 'O', 'O']], true)
    ∧ (replStep w0 7 ⟨[], [], 1⟩ lineSetEq).action
        = Action.builtinInProc Builtin.set ['s', 'e', 't', ' ', '=', 'F', 'O', 'O'] :=
  ⟨rfl, rfl⟩

/-- Claim C10: parsing the line consisting of the single token `&` yields a
record with the background flag set and an argument vector whose first slot
is ALREADY the NULL sentinel; the REPL still forks and dispatches it to
`execvp`, a job is recorded, and the program name handed to `execvp` is the
NULL slot 0. -/
theorem spec_c10_null_exec :
    parse_inbuf [] lineAmp = some ⟨some [none], none, true, false⟩
    ∧ (replStep w0 7 ⟨[], [], 1⟩ lineAmp).action = Action.forkedExec (some [none]) true
    ∧ (replStep w0 7 ⟨[], [], 1⟩ lineAmp).st.joblist = [⟨7, ['&']⟩]
    ∧ execvpArg0 (some [none]) = none :=
  ⟨rfl, rfl, rfl, rfl⟩

/-- Claim C4 counterexample: in a concrete iteration (line `x`, empty
state), the sweep event does NOT precede the read event — the code reads
the input line (line 405) before sweeping the job table (lines 408-442). -/
theorem spec_c4_counterexample :
    ¬ (evIdx Ev.sweepEv (replStep w0 7 ⟨[], [], 1⟩ lineX).trace
        < evIdx Ev.readLineEv (replStep w0 7 ⟨[], [], 1⟩ lineX).trace) := by decide

/-- Claim C4 (amended): in every REPL iteration the input line is read
first and the Job Table sweep runs immediately afterwards, before the line
is parsed or dispatched; a background job completion is therefore reported
while handling the next user interaction after it exits, not before the
line is read. -/
theorem spec_c4_amended (w : Nat → WaitStatus) (newPid : Nat) (s : ShellState) (l : List Char) :
    evIdx Ev.readLineEv (replStep w newPid s l).trace = 0
    ∧ evIdx Ev.sweepEv (replStep w newPid s l).trace = 1
    ∧ 1 < evIdx Ev.dispatchEv (replStep w newPid s l).trace := by
  by_cases hb : l.dropWhile isWS = []
  · rw [replStep_blank w newPid s l hb]
    refine ⟨rfl, rfl, ?_⟩
    show 1 < evIdx Ev.dispatchEv [Ev.readLineEv, Ev.sweepEv, Ev.blankSkipEv]
    decide
  · cases hp : parse_inbuf (histPush s.histlist) l with
    | none =>
      rw [replStep_parseFail w newPid s l hb hp]
      refine ⟨rfl, rfl, ?_⟩
      show 1 < evIdx Ev.dispatchEv [Ev.readLineEv, Ev.sweepEv, Ev.histAppendEv, Ev.parseFailEv]
      decide
    | some r =>
      rw [replStep_parsed w newPid s l r hb hp]
      refine ⟨rfl, rfl, ?_⟩
      show 1 < evIdx Ev.dispatchEv [Ev.readLineEv, Ev.sweepEv, Ev.histAppendEv, Ev.dispatchEv]
      decide

/-- Claim C5 counterexample: on the line `foo a&b` the last token is
`a&b`, which neither is `&` nor ends with `&`, yet the parsed record has
`background = true` (and the final argument is truncated to `a`):
`strchr` finds the ampersand ANYWHERE in the last token (line 357). -/
theorem spec_c5_counterexample :
    parse_inbuf [] lineFooAmp
        = some ⟨some [some ['f', 'o', 'o'], some ['a']], none, true, false⟩
    ∧ (tokenize lineFooAmp).getLast? = some ['a', '&', 'b']
    ∧ ¬ (['a', '&', 'b'].getLast? = some '&') := by
  refine ⟨rfl, rfl, by decide⟩

/-- Claim C5 (amended): for a parsed non-builtin, non-history line with at
least one token, the background flag is true iff the last token CONTAINS an
ampersand anywhere; if the first ampersand is the first character of the
last token, that whole token is replaced by the NULL slot in the argument
vector, and otherwise the final argument is the last token truncated just
before its first ampersand. -/
theorem spec_c5_amended (hist : List Input) (l : List Char) (r : Input) (t : List Char)
    (hb : builtinOf l = none)
    (hx : firstIdx (fun c => c == '!') l = none)
    (hp : parse_inbuf hist l = some r)
    (ht : (tokenize l).getLast? = some t) :
    (r.background = true ↔ (firstIdx (fun c => c == '&') t).isSome = true)
    ∧ (t.head? = some '&' →
        r.cmdvec = some ((tokenize l).dropLast.map some ++ [none]))
    ∧ (∀ k, firstIdx (fun c => c == '&') t = some k → 0 < k →
        r.cmdvec = some ((tokenize l).dropLast.map some ++ [some (t.take k)])) := by
  have hr : finishInput (tokenize l) none = r := by
    rw [parse_inbuf, hb, hx] at hp
    exact Option.some.inj hp
  subst hr
  have hmem : t ∈ tokenize l := mem_of_getLastSome _ _ ht
  obtain ⟨htne, htws⟩ := tokenize_mem l t hmem
  cases hamp : firstIdx (fun c => c == '&') t with
  | none =>
    have hfin : finishInput (tokenize l) none
        = ⟨some ((tokenize l).dropLast.map some ++ [some (backTrim t t.length)]),
            none, false, false⟩ := by
      simp only [finishInput, ht, hamp]
    rw [hfin]
    refine ⟨by simp, ?_, ?_⟩
    · intro hhead
      exfalso
      cases t with
      | nil => exact htne rfl
      | cons a ts =>
        simp at hhead
        subst hhead
        simp [firstIdx] at hamp
    · intro k hk
      exact Option.noConfusion hk
  | some k0 =>
    have hfin : finishInput (tokenize l) none
        = ⟨some ((tokenize l).dropLast.map some
              ++ [if k0 = 0 then none else some (backTrim t k0)]),
            none, true, false⟩ := by
      simp only [finishInput, ht, hamp]
    rw [hfin]
    refine ⟨by simp, ?_, ?_⟩
    · intro hhead
      cases t with
      | nil => exact absurd rfl htne
      | cons a ts =>
        simp at hhead
        subst hhead
        simp [firstIdx] at hamp
        rw [← hamp]
        simp
    · intro k hk hkpos
      have hk0 : k0 = k := Option.some.inj hk
      subst hk0
      have hlt : k0 < t.length := firstIdx_lt_length _ t k0 hamp
      rw [if_neg (by omega), backTrim_eq_take t k0 hkpos (le_of_lt hlt) htws]

/-- Claim C5 witness: the amended statement instantiated at the line `x&`
(single token ending in an ampersand). -/
theorem spec_c5_witness :
    ((⟨some [some ['x']], none, true, false⟩ : Input).background = true
        ↔ (firstIdx (fun c => c == '&') ['x', '&']).isSome = true)
    ∧ (['x', '&'].head? = some '&' →
        (⟨some [some ['x']], none, true, false⟩ : Input).cmdvec
          = some ((tokenize ['x', '&', '\n']).dropLast.map some ++ [none]))
    ∧ (∀ k, firstIdx (fun c => c == '&') ['x', '&'] = some k → 0 < k →
        (⟨some [some ['x']], none, true, false⟩ : Input).cmdvec
          = some ((tokenize ['x', '&', '\n']).dropLast.map some ++ [some (['x', '&'].take k)])) :=
  spec_c5_amended [] ['x', '&', '\n'] ⟨some [some ['x']], none, true, false⟩ ['x', '&']
    (by decide) (by decide) (by decide) (by decide)

/-- Claim C7: over every sequence of input lines the History Store never
exceeds the capacity bound BUFSIZ (the line-buffer size constant), and an
append performed at capacity on a non-blank line evicts exactly the oldest
entry: the store becomes the old store without its head, plus one new tail
entry (FIFO eviction). -/
theorem spec_c7_capacity_fifo :
    (∀ (w : Nat → WaitStatus) (newPid : Nat) (lines : List (List Char)) (s : ShellState),
        s.histlist.length ≤ BUFSIZ → (replRun w newPid s lines).histlist.length ≤ BUFSIZ)
    ∧ (∀ (w : Nat → WaitStatus) (newPid : Nat) (s : ShellState) (l : List Char),
        ¬ l.dropWhile isWS = [] → s.histlist.length = BUFSIZ →
        ∃ e, (replStep w newPid s l).st.histlist = s.histlist.drop 1 ++ [e]) := by
  constructor
  · intro w newPid lines
    induction lines with
    | nil => intro s hs; simpa [replRun] using hs
    | cons l ls ih =>
      intro s hs
      rw [replRun]
      apply ih
      by_cases hb : l.dropWhile isWS = []
      · rw [replStep_blank w newPid s l hb]
        exact hs
      · cases hp : parse_inbuf (histPush s.histlist) l with
        | none =>
          rw [replStep_parseFail w newPid s l hb hp]
          exact length_histPush_le _ hs
        | some r =>
          rw [replStep_parsed w newPid s l r hb hp]
          show (histFill (histPush s.histlist) r).length ≤ BUFSIZ
          rw [length_histFill _ _ (histPush_ne_nil _)]
          exact length_histPush_le _ hs
  · intro w newPid s l hnb hcap
    have hne : s.histlist ≠ [] := by
      apply List.length_pos.mp
      rw [hcap]
      decide
    have hge : BUFSIZ ≤ s.histlist.length := le_of_eq hcap.symm
    cases hp : parse_inbuf (histPush s.histlist) l with
    | none =>
      refine ⟨blankNode, ?_⟩
      rw [replStep_parseFail w newPid s l hnb hp]
      show histPush s.histlist = s.histlist.drop 1 ++ [blankNode]
      rw [histPush, if_neg hne, if_pos hge]
    | some r =>
      refine ⟨⟨r.cmdvec, r.internal, r.background, false⟩, ?_⟩
      rw [replStep_parsed w newPid s l r hnb hp]
      show histFill (histPush s.histlist) r = _
      rw [histFill, histPush, if_neg hne, if_pos hge, List.dropLast_concat]

/-- Claim C7 witness: both conjuncts instantiated — a run from the empty
store stays within the bound, and a store filled to exactly BUFSIZ entries
loses its head on the next non-blank line. -/
theorem spec_c7_witness :
    ((replRun w0 7 ⟨[], [], 1⟩ [lineX]).histlist.length ≤ BUFSIZ)
    ∧ (∃ e, (replStep w0 7 ⟨List.replicate BUFSIZ blankNode, [], 1⟩ lineX).st.histlist
          = (List.replicate BUFSIZ blankNode).drop 1 ++ [e]) :=
  ⟨spec_c7_capacity_fifo.1 w0 7 [lineX] ⟨[], [], 1⟩ (by decide),
   spec_c7_capacity_fifo.2 w0 7 ⟨List.replicate BUFSIZ blankNode, [], 1⟩ lineX
     (by decide) (by simp)⟩

/-- Claim C9: for every N between 1 and the number of entries the parser
walks, a line `!N` (any whitespace-free digit token with value N) resolves
to the N-th entry counting from the oldest, 1-indexed from the head of the
list — a purely positional rule, so after an eviction the shifted entries
are found at their new positions — and the `history` builtin enumerates the
entries in insertion order with the same 1-based indexing. -/
theorem spec_c9_resolve_order (h : List Input) (n : Nat) (h1 : 1 ≤ n) (h2 : n ≤ h.length) :
    (∀ ds : List Char, ds.all (fun c => !isWS c) = true → strtoul10 ds = n →
        parse_inbuf h ('!' :: (ds ++ ['\n'])) =
          (h[n - 1]?).map (fun e => ⟨e.cmdvec, e.internal, e.background, true⟩))
    ∧ (builtin_history h).length = h.length
    ∧ (∀ (i : Nat) (e : Input), h[i]? = some e →
        (builtin_history h)[i]? = some (i + 1, cmdvec0 e, e.background)) := by
  refine ⟨?_, histLinesAux_length h 0, ?_⟩
  · intro ds hws hval
    have hbang : builtinOf ('!' :: (ds ++ ['\n'])) = none := rfl
    have hidx : firstIdx (fun c => c == '!') ('!' :: (ds ++ ['\n'])) = some 0 := rfl
    rw [parse_inbuf, hbang, hidx]
    simp only [List.drop_succ_cons, List.drop_zero]
    rw [takeWhile_nonws ds hws, hval]
    rw [if_neg (by omega)]
    have hlt : n - 1 < h.length := by omega
    rw [List.getElem?_eq_getElem hlt]
    rfl
  · intro i e hie
    have := histLinesAux_get h 0 i e hie
    rw [builtin_history]
    simpa using this

/-- Claim C9 witness: instantiated at a two-entry history, the line `!2`
and the first history listing line. -/
theorem spec_c9_witness :
    parse_inbuf [entryLs, entryPwd] ('!' :: (['2'] ++ ['\n'])) =
      (([entryLs, entryPwd])[2 - 1]?).map
        (fun e => ⟨e.cmdvec, e.internal, e.background, true⟩)
    ∧ (builtin_history [entryLs, entryPwd])[0]?
        = some (0 + 1, cmdvec0 entryLs, entryLs.background) :=
  ⟨(spec_c9_resolve_order [entryLs, entryPwd] 2 (by decide) (by decide)).1 ['2']
      (by decide) (by decide),
   (spec_c9_resolve_order [entryLs, entryPwd] 2 (by decide) (by decide)).2.2 0 entryLs
      (by decide)⟩

end Supersh
